import Mathlib

/-!
Verification of the buna Cloudflare worker builder and route codegen.

This file gives a shallow embedding of the pure string-processing core of
the repository (packages/buna/src/cloudflare/builder.ts and
packages/buna/src/dev/generate-routes.ts) and proves the frozen claims
about it.  Strings are modelled as lists of characters (JS strings are
sequences of code units; all relevant operations here act the same on
code points), machine 32-bit arithmetic is modelled with Nat and explicit
reduction modulo 2 ^ 32, and external effects (the filesystem, Bun.build)
are modelled as explicit oracles or inductive trees passed to the
embedded functions.
-/

/-- Strings of the embedded program are lists of characters. -/
abbrev Str := List Char

/-- Double-quote character (written by code to avoid escaping issues). -/
def qD : Char := Char.ofNat 34

/-- Single-quote character. -/
def qS : Char := Char.ofNat 39

/-- Test for the ASCII alphanumeric characters, the class [a-zA-Z0-9]
used by the slugify regexes in builder.ts. -/
def isAlnum (c : Char) : Bool :=
  (('a' ≤ c && c ≤ 'z') || ('A' ≤ c && c ≤ 'Z') || ('0' ≤ c && c ≤ '9'))

/-- Substring test, the semantics of the JS String.prototype.includes. -/
def containsSub (needle hay : Str) : Bool :=
  needle.isPrefixOf hay ||
    match hay with
    | [] => false
    | _ :: t => containsSub needle t

/-! ### hashString (builder.ts lines 431-438)

The source computes the UTF-8 encoding of its argument with TextEncoder,
folds (hash * 31 + byte) >>> 0 over the bytes, and renders the result
with Number.prototype.toString(16).  Since hash < 2 ^ 32 the product
hash * 31 + byte < 2 ^ 37 is exact in a 64-bit float, and >>> 0 reduces
it modulo 2 ^ 32. -/

/-- UTF-8 encoding of a character sequence, byte values as Nat.
This is the encoding performed by TextEncoder in hashString. -/
def utf8Bytes : Str → List Nat
  | [] => []
  | c :: rest =>
    (let n := c.toNat
     if n < 128 then [n]
     else if n < 2048 then [192 + n / 64, 128 + n % 64]
     else if n < 65536 then [224 + n / 4096, 128 + (n / 64) % 64, 128 + n % 64]
     else [240 + n / 262144, 128 + (n / 4096) % 64, 128 + (n / 64) % 64, 128 + n % 64])
      ++ utf8Bytes rest

/-- Loop of hashString: hash = (hash * 31 + data[i]) >>> 0. -/
def hashLoop (h : Nat) : List Nat → Nat
  | [] => h
  | b :: rest => hashLoop ((h * 31 + b) % 4294967296) rest

/-- Lowercase hexadecimal digit for a value below 16. -/
def hexDigit (d : Nat) : Char :=
  if d < 10 then Char.ofNat (48 + d) else Char.ofNat (87 + d)

/-- Most-significant-first hex digit accumulator; the fuel argument is a
bound on the number of digits so the recursion is structural. -/
def toHexAux : Nat → Nat → Str → Str
  | 0, _, acc => acc
  | fuel + 1, n, acc => if n = 0 then acc else toHexAux fuel (n / 16) (hexDigit (n % 16) :: acc)

/-- Rendering of Number.prototype.toString(16) for a natural number:
lowercase hex digits, no padding, and the single digit 0 for zero. -/
def toHex (n : Nat) : Str :=
  if n = 0 then ['0'] else toHexAux (n + 1) n []

/-- Embedding of hashString from builder.ts. -/
def hashString (value : Str) : Str :=
  toHex (hashLoop 0 (utf8Bytes value))

/-! ### slugify (builder.ts lines 440-446) -/

/-- First slugify step: value.replace of every backslash by a slash. -/
def backslashToSlash (s : Str) : Str :=
  s.map (fun c => if c = '\\' then '/' else c)

/-- Replacement of every maximal run of characters satisfying p by the
single character r, the semantics of a global replace of the regex
class+ on strings.  The inRun flag records whether the previous input
character was part of a run. -/
def collapseRunsAux (p : Char → Bool) (r : Char) : Bool → Str → Str
  | _, [] => []
  | inRun, c :: rest =>
    if p c then (if inRun then [] else [r]) ++ collapseRunsAux p r true rest
    else c :: collapseRunsAux p r false rest

/-- Replacement of every maximal run of p-characters by r. -/
def collapseRuns (p : Char → Bool) (r : Char) (s : Str) : Str :=
  collapseRunsAux p r false s

/-- Removal of the leading and the trailing hyphen run, the semantics of
a global replace of leading-or-trailing hyphen runs by the empty
string. -/
def stripEdgeDashes (s : Str) : Str :=
  ((s.dropWhile (fun c => c = '-')).reverse.dropWhile (fun c => c = '-')).reverse

/-- Embedding of slugify from builder.ts: backslashes to slashes, runs
of non-alphanumerics to single hyphens, edge hyphens stripped, hyphen
runs collapsed, with the fallback value bundle for an empty result. -/
def slugify (value : Str) : Str :=
  let step1 := backslashToSlash value
  let step2 := collapseRuns (fun c => !isAlnum c) '-' step1
  let step3 := stripEdgeDashes step2
  let step4 := collapseRuns (fun c => c = '-') '-' step3
  if step4 = [] then "bundle".data else step4

/-! ### Route mapping (generate-routes.ts lines 25-61, builder.ts lines 162-189)

Both functions first apply the node relative() builtin to obtain the
path of the file relative to the routes (resp. pages) directory; the
embedding starts from that relative path, which is how the claims are
phrased as well. -/

/-- Removal of a suffix: the input shortened by n characters when suf is
a suffix of it. -/
def dropEnd (s : Str) (n : Nat) : Str := s.take (s.length - n)

/-- Semantics of the replace of the anchored regex for the source
extensions tsx, jsx, ts, js (generate-routes.ts line 27 and the
equivalent anchored regex on builder.ts line 294): the matching
extension is removed from the end. -/
def stripSrcExt (s : Str) : Str :=
  if ".tsx".data.isSuffixOf s then dropEnd s 4
  else if ".jsx".data.isSuffixOf s then dropEnd s 4
  else if ".ts".data.isSuffixOf s then dropEnd s 3
  else if ".js".data.isSuffixOf s then dropEnd s 3
  else s

/-- Semantics of the replace of the anchored regex for the html
extension (builder.ts line 164). -/
def stripHtmlExt (s : Str) : Str :=
  if ".html".data.isSuffixOf s then dropEnd s 5 else s

/-- Mapping of one route segment in filePathToRoute
(generate-routes.ts lines 39-53): a bracketed segment becomes a star
when its inner text starts with three dots, and otherwise a colon
followed by the inner text; all other segments are kept. -/
def mapRouteSegment (seg : Str) : Str :=
  if seg.head? = some '[' && seg.getLast? = some ']' then
    (let inner := (seg.drop 1).dropLast
     if "...".data.isPrefixOf inner then ['*'] else ':' :: inner)
  else seg

/-- Embedding of filePathToRoute from generate-routes.ts, applied to the
path relative to the routes directory (backslashes already normalised;
the node relative() call of line 26 is the input here). -/
def filePathToRoute (rel : Str) : Str :=
  let withoutExt := stripSrcExt rel
  let segments := withoutExt.splitOn '/'
  if segments = ["index".data] then ['/']
  else
    let coreSegments :=
      if segments.getLast? = some "index".data then segments.dropLast else segments
    let mapped := coreSegments.map mapRouteSegment
    if mapped = [] then ['/'] else '/' :: List.intercalate ['/'] mapped

/-- Mapping of one route segment in inferRouteFromFile
(builder.ts lines 176-180): the star case tests that the segment itself
starts with a bracket and three dots. -/
def inferMapSegment (seg : Str) : Str :=
  if seg.head? = some '[' && seg.getLast? = some ']' then
    (if "[...".data.isPrefixOf seg then ['*'] else ':' :: (seg.drop 1).dropLast)
  else seg

/-- Normalisation loop of inferRouteFromFile (builder.ts lines 171-182):
a map over the filtered segments that turns a trailing index segment
into null, followed by a filter that keeps exactly the non-null
non-empty results.  The index === arr.length - 1 test of the source is
rendered by the singleton case of the recursion. -/
def inferNormalize : List Str → List Str
  | [] => []
  | [seg] =>
    if seg = "index".data then []
    else (let m := inferMapSegment seg; if m = [] then [] else [m])
  | seg :: rest =>
    (let m := inferMapSegment seg; if m = [] then [] else [m]) ++ inferNormalize rest

/-- Embedding of inferRouteFromFile from builder.ts, applied to the path
relative to the pages directory (the node relative() call of line 163
is the input here). -/
def inferRouteFromFile (rel : Str) : Str :=
  let withoutExt := stripHtmlExt rel
  let segments := withoutExt.splitOn '/'
  if segments = ["index".data] then ['/']
  else
    let normalizedSegments := inferNormalize (segments.filter (fun s => s ≠ []))
    if normalizedSegments = [] then ['/']
    else '/' :: List.intercalate ['/'] normalizedSegments

/-! ### Pattern compilation (builder.ts lines 448-484) -/

/-- Characters escaped by escapeRegex. -/
def regexSpecials : List Char :=
  ['.', '*', '+', '?', '^', '$', Char.ofNat 123, Char.ofNat 125, '(', ')', '|', '[', ']', '\\']

/-- Embedding of escapeRegex from builder.ts: every regex metacharacter
receives a preceding backslash. -/
def escapeRegex (value : Str) : Str :=
  value.flatMap (fun c => if c ∈ regexSpecials then ['\\', c] else [c])

/-- Embedding of compilePatternToRegex from builder.ts: literal-only
patterns give null, otherwise an anchored regex source string built
segment by segment. -/
def compilePatternToRegex (pattern : Str) : Option Str :=
  if pattern = [] || pattern = ['/'] then none
  else if !pattern.contains ':' && !pattern.contains '*' then none
  else
    let segments := (pattern.splitOn '/').filter (fun s => s ≠ [])
    let parts := segments.map (fun segment =>
      if segment = ['*'] then "(.*)".data
      else if segment.head? = some ':' then "([^/]+)".data
      else escapeRegex segment)
    some ("^/".data ++ List.intercalate ['/'] parts ++ ['$'])

/-- Embedding of sanitizeAssetPrefix from builder.ts (the name avoids a
reserved suffix): a leading slash is ensured and a trailing slash
removed. -/
def sanitizeAssetBase (p : Str) : Str :=
  let p1 := if p.head? = some '/' then p else '/' :: p
  if p1.getLast? = some '/' then p1.dropLast else p1

/-! ### Specification-side formulations for claim C7 -/

/-- Spec-side polynomial hash of claim C7: the indexed recurrence
h 0 = 0, h (i+1) = (31 * h i + b i) mod 2 ^ 32 over a byte list. -/
def specPolyHash (bs : List Nat) : Nat → Nat
  | 0 => 0
  | i + 1 => (31 * specPolyHash bs i + bs.getD i 0) % 4294967296

/-- Lowercase hexadecimal digit alphabet. -/
def isHexLowerDigit (c : Char) : Bool :=
  ('0' ≤ c && c ≤ '9') || ('a' ≤ c && c ≤ 'f')

/-- Numeric value of one lowercase hex digit. -/
def hexCharVal (c : Char) : Nat :=
  if 97 ≤ c.toNat then c.toNat - 87 else c.toNat - 48

/-- Numeric value of a most-significant-first hex digit string, with
accumulator. -/
def hexValueAux (a : Nat) : Str → Nat
  | [] => a
  | c :: rest => hexValueAux (16 * a + hexCharVal c) rest

/-- Numeric value of a most-significant-first hex digit string. -/
def hexValue (s : Str) : Nat := hexValueAux 0 s

/-- Reference rendering of the hex digits of n (empty for zero), by
well-founded recursion on n. -/
def hexDigitsRef (n : Nat) : Str :=
  if h : n = 0 then [] else hexDigitsRef (n / 16) ++ [hexDigit (n % 16)]
decreasing_by exact Nat.div_lt_self (Nat.pos_of_ne_zero h) (by omega)

/-! ### Worker runtime (createWorkerSource template, builder.ts lines 503-567)

The emitted worker script closes over a route table and an asset map
and serves requests with the functions normalizePath, matchHtmlRoute
and serveAsset.  The embedding models the route matcher field as an
opaque boolean test, which is how the generated script uses the RegExp
object built from the compiled regex source. -/

/-- Value of one entry of the STATIC_ASSETS map of the worker. -/
structure StaticAsset where
  body : Str
  contentType : Str
deriving DecidableEq

/-- One entry of the HTML_ROUTES table of the worker.  The matcher is
null for literal routes and otherwise the test of the compiled
regex. -/
structure HtmlRoute where
  pattern : Str
  html : Str
  matcher : Option (Str → Bool)

/-- Response produced by the worker fetch handler: status, body and
header list. -/
structure WorkerResponse where
  status : Nat
  body : Str
  headers : List (Str × Str)
deriving DecidableEq

/-- Embedding of normalizePath of the worker: a trailing slash is
removed when the path is longer than one character. -/
def normalizePath (p : Str) : Str :=
  if 1 < p.length && p.getLast? = some '/' then p.dropLast else p

/-- Condition under which one route of the worker table accepts a
pathname: literal pattern equality, or a positive matcher test.  The
route loop of matchHtmlRoute returns a route exactly when one of its
two tests fires, so the two returns collapse into this disjunction. -/
def routeMatches (route : HtmlRoute) (pathname : Str) : Bool :=
  route.pattern == pathname ||
    (match route.matcher with
     | some m => m pathname
     | none => false)

/-- Embedding of matchHtmlRoute of the worker: the first route of the
table accepting the pathname. -/
def matchHtmlRoute (routes : List HtmlRoute) (pathname : Str) : Option HtmlRoute :=
  routes.find? (fun route => routeMatches route pathname)

/-- Lookup in a JS Map built from an entry list: the last entry with
the requested key wins. -/
def mapGet (entries : List (Str × StaticAsset)) (k : Str) : Option StaticAsset :=
  (entries.reverse.find? (fun e => e.1 == k)).map (fun e => e.2)

/-- Embedding of serveAsset of the worker: a stored asset is served
with its content type and the asset cache-control value. -/
def serveAsset (assets : List (Str × StaticAsset)) (assetCache : Str) (pathname : Str) :
    Option WorkerResponse :=
  (mapGet assets pathname).map (fun asset =>
    { status := 200, body := asset.body,
      headers := [("content-type".data, asset.contentType),
                  ("cache-control".data, assetCache)] })

/-- Headers of an HTML response of the worker. -/
def htmlHeaders (htmlCache : Str) : List (Str × Str) :=
  [("content-type".data, "text/html; charset=utf-8".data),
   ("cache-control".data, htmlCache)]

/-- Embedding of the fetch handler of the emitted worker: the pathname
is normalised, assets are tried first, then the HTML route table, and
otherwise a 404 response is returned. -/
def workerFetch (routes : List HtmlRoute) (assets : List (Str × StaticAsset))
    (htmlCache assetCache : Str) (pathname : Str) : WorkerResponse :=
  let normalized := normalizePath pathname
  match serveAsset assets assetCache normalized with
  | some resp => resp
  | none =>
    match matchHtmlRoute routes normalized with
    | some route => { status := 200, body := route.html, headers := htmlHeaders htmlCache }
    | none => { status := 404, body := "Not Found".data, headers := [] }

/-! ### Asset compilation (builder.ts lines 268-335)

External effects are oracles in a BuildEnv: relativeTo models
relative(projectRoot, entry), bunBuild models a successful Bun.build
call returning the bundled text and the artifact hash (none models a
failed build or a build without artifacts), readFileF and cssExists
model the filesystem, tailwindBuild models the optional Tailwind
plugin, resolveP models resolve(dir, src). -/

/-- Asset record of the builder. -/
structure WorkerAsset where
  entryPath : Str
  urlPath : Str
  contents : Str
  contentType : Str
deriving DecidableEq

/-- Oracles for the effectful dependencies of the builder. -/
structure BuildEnv where
  relativeTo : Str → Str
  bunBuild : Str → Option (Str × Str)
  readFileF : Str → Str
  cssExists : Str → Bool
  tailwindBuild : Option (Str × Str)
  resolveP : Str → Str → Str

/-- Mutable build state of the TransformContext. -/
structure TransformCtx where
  assetsBasePath : Str
  assetCache : List (Str × WorkerAsset)
  assets : List WorkerAsset
  tailwindAsset : Option WorkerAsset
deriving DecidableEq

/-- Lookup of Map.prototype.get on the cache (keys are unique because
insertion goes through cacheSet). -/
def cacheGet (entries : List (Str × WorkerAsset)) (k : Str) : Option WorkerAsset :=
  (entries.find? (fun e => e.1 == k)).map (fun e => e.2)

/-- Map.prototype.set: an existing key keeps its position with the new
value, a new key is appended. -/
def cacheSet (entries : List (Str × WorkerAsset)) (k : Str) (v : WorkerAsset) :
    List (Str × WorkerAsset) :=
  if entries.any (fun e => e.1 == k) then
    entries.map (fun e => if e.1 == k then (k, v) else e)
  else entries ++ [(k, v)]

/-- Semantics of the replace of the anchored css extension regex
(builder.ts line 321): the leftmost match wins, so a five-character
extension ccss or mcss is removed before the plain css case. -/
def stripCssExt (s : Str) : Str :=
  if ".ccss".data.isSuffixOf s || ".mcss".data.isSuffixOf s then dropEnd s 5
  else if ".css".data.isSuffixOf s then dropEnd s 4
  else s

/-- Embedding of compileScriptAsset from builder.ts. -/
def compileScriptAsset (env : BuildEnv) (entryPath : Str) (ctx : TransformCtx) :
    Except Str (WorkerAsset × TransformCtx) :=
  match cacheGet ctx.assetCache entryPath with
  | some cached => .ok (cached, ctx)
  | none =>
    match env.bunBuild entryPath with
    | none => .error ("Falha ao compilar ".data ++ entryPath)
    | some (contents, hash) =>
      let filename := slugify (stripSrcExt (backslashToSlash (env.relativeTo entryPath)))
          ++ '-' :: hash ++ ".js".data
      let urlPath := ctx.assetsBasePath ++ '/' :: filename
      let asset : WorkerAsset :=
        ⟨entryPath, urlPath, contents, "text/javascript; charset=utf-8".data⟩
      .ok (asset, { ctx with assetCache := cacheSet ctx.assetCache entryPath asset,
                             assets := ctx.assets ++ [asset] })

/-- Embedding of compileCssAsset from builder.ts. -/
def compileCssAsset (env : BuildEnv) (entryPath : Str) (ctx : TransformCtx) :
    Except Str (WorkerAsset × TransformCtx) :=
  match cacheGet ctx.assetCache entryPath with
  | some cached => .ok (cached, ctx)
  | none =>
    if env.cssExists entryPath then
      let contents := env.readFileF entryPath
      let filename := slugify (stripCssExt (backslashToSlash (env.relativeTo entryPath)))
          ++ '-' :: hashString contents ++ ".css".data
      let urlPath := ctx.assetsBasePath ++ '/' :: filename
      let asset : WorkerAsset :=
        ⟨entryPath, urlPath, contents, "text/css; charset=utf-8".data⟩
      .ok (asset, { ctx with assetCache := cacheSet ctx.assetCache entryPath asset,
                             assets := ctx.assets ++ [asset] })
    else .error ("Arquivo CSS nao encontrado: ".data ++ entryPath)

/-- Concrete oracle environment for witnesses. -/
def sampleEnv : BuildEnv :=
  ⟨fun _ => "src/app.ts".data, fun _ => some ("JSOUT".data, "h1".data),
   fun _ => "CSS".data, fun _ => true, none, fun d s => d ++ s⟩

/-- Empty build state over the assets base /as. -/
def sampleCtx0 : TransformCtx := ⟨"/as".data, [], [], none⟩

/-- Asset produced by sampleEnv for the entry e. -/
def sampleAsset : WorkerAsset :=
  ⟨"e".data, "/as/src-app-h1.js".data, "JSOUT".data, "text/javascript; charset=utf-8".data⟩

/-- Build state after compiling e in sampleCtx0. -/
def sampleCtx1 : TransformCtx := ⟨"/as".data, [("e".data, sampleAsset)], [sampleAsset], none⟩

/-! ### Worker build (buildCloudflareWorker, builder.ts lines 70-160)

The filesystem is modelled as a tree of entries; collectHtmlFiles
traverses it in entry order exactly as the recursive readdir loop does,
and the pair of path and contents fuses the traversal with the readFile
of the build loop.  A missing pages directory is the none case of the
option, modelling the ENOENT branch.  The HTML transformation is an
oracle here; its own behaviour is modelled separately. -/

/-- Filesystem tree node: a file with contents, or a directory. -/
inductive FsNode where
  | file : Str → Str → FsNode
  | dir : Str → List FsNode → FsNode

/-- Path join with a forward slash. -/
def joinPath (a b : Str) : Str := a ++ '/' :: b

/-- Embedding of collectHtmlFiles from builder.ts: recursive traversal
collecting files with the html extension in discovery order, paired
with their contents. -/
def collectHtmlFiles (dirPath : Str) : List FsNode → List (Str × Str)
  | [] => []
  | .file name contents :: rest =>
      (if ".html".data.isSuffixOf name then [(joinPath dirPath name, contents)] else []) ++
        collectHtmlFiles dirPath rest
  | .dir name sub :: rest =>
      collectHtmlFiles (joinPath dirPath name) sub ++ collectHtmlFiles dirPath rest

/-- Traversal entry point: a missing directory (ENOENT) yields the
empty list instead of an error. -/
def collectHtmlFilesOpt (dirPath : Str) : Option (List FsNode) → List (Str × Str)
  | none => []
  | some entries => collectHtmlFiles dirPath entries

/-- Presence of some html file anywhere in a tree. -/
def fsHasHtml : List FsNode → Bool
  | [] => false
  | .file name _ :: rest => (".html".data.isSuffixOf name) || fsHasHtml rest
  | .dir _ sub :: rest => fsHasHtml sub || fsHasHtml rest

/-- Embedding of extractRoutePattern from builder.ts: the first
position where the literal attribute key matches and is followed by a
non-empty quote-free capture closed by a quote; otherwise the scan
moves one character to the right, which is the leftmost-match semantics
of the anchored-free regex with its one-or-more capture. -/
def extractRoutePattern : Str → Option Str
  | [] => none
  | c :: rest =>
    if ("data-buna-route=".data ++ [qD]).isPrefixOf (c :: rest) then
      (let tail := (c :: rest).drop ("data-buna-route=".data ++ [qD]).length
       let captured := tail.takeWhile (fun ch => ch ≠ qD)
       if captured ≠ [] ∧ tail.drop captured.length ≠ [] then some captured
       else extractRoutePattern rest)
    else extractRoutePattern rest

/-- Route record emitted into the worker source. -/
structure HtmlRouteRecord where
  pattern : Str
  html : Str
  regex : Option Str
deriving DecidableEq

/-- Model of relative(pagesDir, file) for the paths produced by the
traversal, which always start with the pages directory followed by a
slash. -/
def stripPathPrefix (base file : Str) : Str :=
  if base.isPrefixOf file then file.drop base.length else file

/-- Loop of buildCloudflareWorker (builder.ts lines 103-117): per html
file, the data-buna-route attribute or the inferred route gives the
pattern, an empty pattern raises the route error, and the record stores
the transformed html and the compiled regex. -/
def buildRoutes (transform : Str → Str) (pagesDir : Str) :
    List (Str × Str) → Except Str (List HtmlRouteRecord)
  | [] => .ok []
  | (file, html) :: rest =>
    let pattern := (extractRoutePattern html).getD
        (inferRouteFromFile (stripPathPrefix (pagesDir ++ ['/']) file))
    if pattern = [] then
      .error ("Nao foi possivel determinar o caminho da rota para ".data ++ file)
    else
      match buildRoutes transform pagesDir rest with
      | .error e => .error e
      | .ok rs =>
          .ok ({ pattern := pattern, html := transform html,
                 regex := compilePatternToRegex pattern } :: rs)

/-- Build summary returned by buildCloudflareWorker.  The asset count
of the source result is part of the separately modelled transform
state. -/
structure BuildResult where
  workerPath : Str
  routes : Nat
deriving DecidableEq

/-- Embedding of buildCloudflareWorker from builder.ts, restricted to
the route pipeline: traversal of the pages tree, the empty-pages error,
the route loop, and the emission of worker.js.  The second component
lists the paths written. -/
def buildCloudflareWorker (transform : Str → Str) (pagesDir workerDir : Str)
    (pagesFs : Option (List FsNode)) :
    Except Str (BuildResult × List HtmlRouteRecord) × List Str :=
  let htmlFiles := collectHtmlFilesOpt pagesDir pagesFs
  if htmlFiles = [] then
    (.error "Nenhuma pagina .html encontrada".data, [])
  else
    match buildRoutes transform pagesDir htmlFiles with
    | .error e => (.error e, [])
    | .ok routes =>
        (.ok ({ workerPath := joinPath workerDir "worker.js".data,
                routes := routes.length }, routes),
         [joinPath workerDir "worker.js".data])

/-! ### HTML transformation (transformHtmlFile, builder.ts lines 191-266)

The two extraction regexes of the source and the inner href regex are
embedded as element lists for a small backtracking matcher with the JS
semantics: leftmost match, greedy character classes with backtracking,
case-insensitive literals, word boundary, one capturing group of a
one-or-more class.  The matcher carries fuel so the recursion is
structural; the fuel passed by execAll bounds the backtracking depth,
which decreases the pair of input length and element count at every
step, so it never runs out on the patterns used here. -/

/-- ASCII lowercase mapping, the effect of toLowerCase on the ASCII
range used by the checked substrings. -/
def asciiLower (c : Char) : Char :=
  if 'A' ≤ c && c ≤ 'Z' then Char.ofNat (c.toNat + 32) else c

/-- Word characters of the regex escape for a word boundary. -/
def isWordChar (c : Char) : Bool := isAlnum c || c = '_'

/-- Case-insensitive literal test at the head of the input. -/
def ciStarts : Str → Str → Bool
  | [], _ => true
  | _ :: _, [] => false
  | a :: s, b :: t => (asciiLower a = asciiLower b) && ciStarts s t

/-- Quote class of the regexes. -/
def isQuoteChar (c : Char) : Bool := c = qD || c = qS

/-- Elements of the embedded regexes. -/
inductive RElem where
  | lit : Str → RElem
  | one : (Char → Bool) → RElem
  | star : (Char → Bool) → RElem
  | starCap : (Char → Bool) → Str → RElem
  | plusCap : (Char → Bool) → RElem
  | wb : RElem

/-- Word-boundary test between the previously consumed character and
the head of the remaining input. -/
def wordBoundary (prev : Option Char) (input : Str) : Bool :=
  (match prev with | some c => isWordChar c | none => false)
    != (match input.head? with | some c => isWordChar c | none => false)

/-- Backtracking matcher for one match attempt anchored at the current
position: greedy stars try the longer continuation first, the starCap
element accumulates the text of the capturing group, and the result is
the remaining input together with the captured group. -/
def reMatch : Nat → List RElem → Option Char → Str → Option (Str × Option Str)
  | 0, _, _, _ => none
  | fuel + 1, elems, prev, input =>
    match elems with
    | [] => some (input, none)
    | .lit s :: rest =>
      if ciStarts s input then
        reMatch fuel rest
          (match (input.take s.length).getLast? with | some c => some c | none => prev)
          (input.drop s.length)
      else none
    | .one p :: rest =>
      (match input with
       | c :: tl => if p c then reMatch fuel rest (some c) tl else none
       | [] => none)
    | .wb :: rest =>
      if wordBoundary prev input then reMatch fuel rest prev input else none
    | .star p :: rest =>
      (match input with
       | c :: tl =>
         if p c then
           (match reMatch fuel (.star p :: rest) (some c) tl with
            | some r => some r
            | none => reMatch fuel rest prev input)
         else reMatch fuel rest prev input
       | [] => reMatch fuel rest prev [])
    | .starCap p acc :: rest =>
      (match input with
       | c :: tl =>
         if p c then
           (match reMatch fuel (.starCap p (acc ++ [c]) :: rest) (some c) tl with
            | some r => some r
            | none => (reMatch fuel rest prev input).map (fun r => (r.1, some (r.2.getD acc))))
         else (reMatch fuel rest prev input).map (fun r => (r.1, some (r.2.getD acc)))
       | [] => (reMatch fuel rest prev []).map (fun r => (r.1, some (r.2.getD acc))))
    | .plusCap p :: rest =>
      (match input with
       | c :: tl => if p c then reMatch fuel (.starCap p [c] :: rest) (some c) tl else none
       | [] => none)

/-- Global exec loop of a JS regex: at each position the matcher is
tried, a successful non-empty match is recorded and the scan resumes
after it, otherwise the scan advances one character; the previous
character is carried for word boundaries. -/
def execAll : Nat → List RElem → Option Char → Str → List (Str × Option Str)
  | 0, _, _, _ => []
  | fuel + 1, elems, prev, input =>
    match reMatch (input.length + elems.length + 1) elems prev input with
    | some (rem, cap) =>
      if rem.length < input.length then
        (let matched := input.take (input.length - rem.length)
         (matched, cap) :: execAll fuel elems matched.getLast? rem)
      else
        (match input with
         | [] => []
         | c :: tl => execAll fuel elems (some c) tl)
    | none =>
      (match input with
       | [] => []
       | c :: tl => execAll fuel elems (some c) tl)

/-- All matches of an embedded regex over an input. -/
def reExec (elems : List RElem) (input : Str) : List (Str × Option Str) :=
  execAll (input.length + 1) elems none input

/-- Embedding of the script tag regex of extractScriptTags. -/
def scriptTagRE : List RElem :=
  [.lit "<script".data, .wb, .star (fun c => c ≠ '>'), .lit "src=".data,
   .one isQuoteChar, .plusCap (fun c => !isQuoteChar c), .one isQuoteChar,
   .star (fun c => c ≠ '>'), .lit "></script>".data]

/-- Embedding of the stylesheet link regex of extractStylesheetLinks. -/
def linkTagRE : List RElem :=
  [.lit "<link".data, .wb, .star (fun c => c ≠ '>'), .lit "rel=".data,
   .one isQuoteChar, .lit "stylesheet".data, .one isQuoteChar,
   .star (fun c => c ≠ '>'), .lit ">".data]

/-- Embedding of the href regex matched inside one link tag. -/
def hrefRE : List RElem :=
  [.lit "href=".data, .one isQuoteChar, .plusCap (fun c => !isQuoteChar c),
   .one isQuoteChar]

/-- Extracted script tag record. -/
structure ScriptTag where
  original : Str
  src : Str
  isModule : Bool

/-- Extracted stylesheet link record. -/
structure StylesheetTag where
  original : Str
  href : Str

/-- Embedding of extractScriptTags from builder.ts: the module flag is
the containment of a quoted module type text in the lowercased tag. -/
def extractScriptTags (html : Str) : List ScriptTag :=
  (reExec scriptTagRE html).filterMap (fun m =>
    m.2.map (fun src =>
      (let attrs := m.1.map asciiLower
       { original := m.1, src := src,
         isModule := containsSub ("type=".data ++ [qD] ++ "module".data ++ [qD]) attrs
           || containsSub ("type=".data ++ [qS] ++ "module".data ++ [qS]) attrs })))

/-- Embedding of extractStylesheetLinks from builder.ts: each matched
link tag with a first href match inside it. -/
def extractStylesheetLinks (html : Str) : List StylesheetTag :=
  (reExec linkTagRE html).filterMap (fun m =>
    match (reExec hrefRE m.1).head? with
    | some (_, some href) => some { original := m.1, href := href }
    | _ => none)

/-- Embedding of isRelativeAsset from builder.ts. -/
def isRelativeAsset (value : Str) : Bool :=
  value ≠ [] && ("./".data.isPrefixOf value || "../".data.isPrefixOf value)

/-- Replacement of the first occurrence of a search string, the
semantics of String.prototype.replace with string arguments (the
replacement is inserted literally; no dollar patterns occur in the
builder templates). -/
def replaceFirst (target repl : Str) : Str → Str
  | [] => if target.isPrefixOf [] then repl else []
  | c :: tl =>
    if target.isPrefixOf (c :: tl) then repl ++ (c :: tl).drop target.length
    else c :: replaceFirst target repl tl

/-- Embedding of compileTailwindAsset from builder.ts: the cached
asset, or none when no plugin is available (the tag is then left
unchanged), or a fresh tailwind asset appended to the asset table. -/
def compileTailwindAsset (env : BuildEnv) (ctx : TransformCtx) :
    Option WorkerAsset × TransformCtx :=
  match ctx.tailwindAsset with
  | some a => (some a, ctx)
  | none =>
    match env.tailwindBuild with
    | none => (none, ctx)
    | some (contents, hash) =>
      let urlPath := ctx.assetsBasePath ++ '/' :: ("tailwind-".data ++ hash ++ ".css".data)
      let asset : WorkerAsset :=
        ⟨"tailwindcss".data, urlPath, contents, "text/css; charset=utf-8".data⟩
      (some asset, { ctx with tailwindAsset := some asset, assets := ctx.assets ++ [asset] })

/-- Replacement script tag template of transformHtmlFile. -/
def scriptAssetTag (url : Str) : Str :=
  "<script type=".data ++ [qD] ++ "module".data ++ [qD] ++ " src=".data ++ [qD] ++ url
    ++ [qD] ++ " data-buna-asset=".data ++ [qD] ++ "true".data ++ [qD] ++ "></script>".data

/-- Replacement stylesheet link template of transformHtmlFile. -/
def linkAssetTag (url : Str) : Str :=
  "<link rel=".data ++ [qD] ++ "stylesheet".data ++ [qD] ++ " href=".data ++ [qD] ++ url
    ++ [qD] ++ " data-buna-asset=".data ++ [qD] ++ "true".data ++ [qD] ++ " />".data

/-- Script loop of transformHtmlFile: non-module or non-relative tags
are skipped, the others are compiled and replaced in the output. -/
def applyScriptTags (env : BuildEnv) (dir : Str) :
    List ScriptTag → Str → TransformCtx → Except Str (Str × TransformCtx)
  | [], output, ctx => .ok (output, ctx)
  | tag :: rest, output, ctx =>
    if tag.isModule && isRelativeAsset tag.src then
      match compileScriptAsset env (env.resolveP dir tag.src) ctx with
      | .error e => .error e
      | .ok (asset, ctx') =>
        applyScriptTags env dir rest
          (replaceFirst tag.original (scriptAssetTag asset.urlPath) output) ctx'
    else applyScriptTags env dir rest output ctx

/-- Stylesheet loop of transformHtmlFile: the tailwindcss href uses the
tailwind asset when available, relative hrefs are compiled as css
assets, and all other links are skipped. -/
def applySheetTags (env : BuildEnv) (dir : Str) :
    List StylesheetTag → Str → TransformCtx → Except Str (Str × TransformCtx)
  | [], output, ctx => .ok (output, ctx)
  | tag :: rest, output, ctx =>
    if tag.href = "tailwindcss".data then
      match compileTailwindAsset env ctx with
      | (none, ctx') => applySheetTags env dir rest output ctx'
      | (some asset, ctx') =>
        applySheetTags env dir rest
          (replaceFirst tag.original (linkAssetTag asset.urlPath) output) ctx'
    else if isRelativeAsset tag.href then
      match compileCssAsset env (env.resolveP dir tag.href) ctx with
      | .error e => .error e
      | .ok (asset, ctx') =>
        applySheetTags env dir rest
          (replaceFirst tag.original (linkAssetTag asset.urlPath) output) ctx'
    else applySheetTags env dir rest output ctx

/-- Embedding of transformHtmlFile from builder.ts; dir is the
directory of the html file (dirname applied by the caller), and both
extractions read the original html as in the source. -/
def transformHtmlFile (env : BuildEnv) (dir : Str) (html : Str) (ctx : TransformCtx) :
    Except Str (Str × TransformCtx) :=
  match applyScriptTags env dir (extractScriptTags html) html ctx with
  | .error e => .error e
  | .ok (output, ctx') => applySheetTags env dir (extractStylesheetLinks html) output ctx'

/-- Script tag without a type attribute but with an attribute named
notype whose value is module; its lowercased text contains the checked
substring, so the builder treats it as a module script. -/
def htmlNoTypeSub : Str :=
  "<script notype=".data ++ [qD] ++ "module".data ++ [qD] ++ " src=".data ++ [qD]
    ++ "./app.js".data ++ [qD] ++ "></script>".data

/-- Genuine module script tag with a relative source. -/
def htmlModuleTag : Str :=
  "<script type=".data ++ [qD] ++ "module".data ++ [qD] ++ " src=".data ++ [qD]
    ++ "./app.js".data ++ [qD] ++ "></script>".data

/-- Script tag with a relative source and no type attribute at all. -/
def htmlPlainTag : Str :=
  "<script src=".data ++ [qD] ++ "./app.js".data ++ [qD] ++ "></script>".data

/-- Asset produced by sampleEnv for the resolved entry of ./app.js. -/
def bugAsset : WorkerAsset :=
  ⟨"d./app.js".data, "/as/src-app-h1.js".data, "JSOUT".data,
   "text/javascript; charset=utf-8".data⟩

/-- Build state after compiling that entry. -/
def bugCtx : TransformCtx :=
  ⟨"/as".data, [("d./app.js".data, bugAsset)], [bugAsset], none⟩

theorem hexValueAux_append (a : Nat) (xs ys : Str) :
    hexValueAux a (xs ++ ys) = hexValueAux (hexValueAux a xs) ys := by
  induction xs generalizing a with
  | nil => rfl
  | cons c rest ih => simp [hexValueAux, ih]

theorem hexDigit_mem_alphabet (d : Nat) (h : d < 16) : isHexLowerDigit (hexDigit d) = true := by
  interval_cases d <;> decide

theorem hexCharVal_hexDigit (d : Nat) (h : d < 16) : hexCharVal (hexDigit d) = d := by
  interval_cases d <;> decide

theorem hexDigit_ne_zero_char (d : Nat) (h : d < 16) (hd : d ≠ 0) : hexDigit d ≠ '0' := by
  interval_cases d <;> simp_all <;> decide

theorem hexDigitsRef_value (n : Nat) (a : Nat) :
    hexValueAux a (hexDigitsRef n) = a * 16 ^ (hexDigitsRef n).length + n := by
  induction n using Nat.strong_induction_on generalizing a with
  | _ n ih =>
    by_cases h : n = 0
    · subst h; rw [hexDigitsRef]; simp [hexValueAux]
    · rw [hexDigitsRef]; simp only [h, dite_false]
      rw [hexValueAux_append, ih (n / 16) (Nat.div_lt_self (Nat.pos_of_ne_zero h) (by omega)) a]
      simp only [hexValueAux, List.length_append, List.length_cons, List.length_nil]
      rw [hexCharVal_hexDigit (n % 16) (Nat.mod_lt n (by omega))]
      ring_nf
      omega

theorem hexDigitsRef_alphabet (n : Nat) :
    ∀ c ∈ hexDigitsRef n, isHexLowerDigit c = true := by
  induction n using Nat.strong_induction_on with
  | _ n ih =>
    by_cases h : n = 0
    · subst h; rw [hexDigitsRef]; simp
    · rw [hexDigitsRef]; simp only [h, dite_false]
      intro c hc
      rcases List.mem_append.1 hc with h1 | h1
      · exact ih (n / 16) (Nat.div_lt_self (Nat.pos_of_ne_zero h) (by omega)) c h1
      · rcases List.mem_singleton.1 h1 with rfl
        exact hexDigit_mem_alphabet _ (Nat.mod_lt n (by omega))

theorem hexDigitsRef_head (n : Nat) (h : n ≠ 0) :
    (hexDigitsRef n).head? ≠ some '0' := by
  induction n using Nat.strong_induction_on with
  | _ n ih =>
    rw [hexDigitsRef]; simp only [h, dite_false]
    by_cases hq : n / 16 = 0
    · rw [hq, hexDigitsRef]
      simp only [dite_true, List.nil_append, List.head?]
      have hmod : n % 16 ≠ 0 := by
        intro hm; exact h (by omega)
      intro hcon
      exact hexDigit_ne_zero_char (n % 16) (Nat.mod_lt n (by omega)) hmod (by
        injection hcon)
    · have hne : hexDigitsRef (n / 16) ≠ [] := by
        rw [hexDigitsRef]; simp [hq]
      rw [List.head?_append_of_ne_nil _ hne]
      exact ih (n / 16) (Nat.div_lt_self (Nat.pos_of_ne_zero h) (by omega)) hq

theorem toHexAux_eq_ref (fuel : Nat) : ∀ n acc, n < 16 ^ fuel →
    toHexAux fuel n acc = hexDigitsRef n ++ acc := by
  induction fuel with
  | zero =>
    intro n acc h
    have : n = 0 := by simpa using Nat.lt_one_iff.1 h
    subst this
    rw [hexDigitsRef]; rfl
  | succ fuel ih =>
    intro n acc h
    by_cases hn : n = 0
    · subst hn; rw [hexDigitsRef]; rfl
    · rw [toHexAux]
      simp only [hn, if_false]
      rw [ih (n / 16) _ (by
        have : n < 16 * 16 ^ fuel := by rw [← pow_succ']; exact h
        omega)]
      conv_rhs => rw [hexDigitsRef]
      simp [hn]

theorem toHex_eq_ref (n : Nat) (h : n ≠ 0) : toHex n = hexDigitsRef n := by
  rw [toHex]
  simp only [h, if_false]
  rw [toHexAux_eq_ref (n + 1) n [] (by
    calc n < 2 ^ n := Nat.lt_two_pow n
    _ ≤ 16 ^ n := Nat.pow_le_pow_left (by omega) n
    _ ≤ 16 ^ (n + 1) := Nat.pow_le_pow_right (by omega) (Nat.le_succ n))]
  simp

theorem hashLoop_concat (bs : List Nat) (b h : Nat) :
    hashLoop h (bs ++ [b]) = (hashLoop h bs * 31 + b) % 4294967296 := by
  induction bs generalizing h with
  | nil => simp [hashLoop]
  | cons x rest ih => simp [hashLoop, ih]

theorem specPolyHash_append (bs ext : List Nat) : ∀ i, i ≤ bs.length →
    specPolyHash (bs ++ ext) i = specPolyHash bs i := by
  intro i
  induction i with
  | zero => intro _; rfl
  | succ i ih =>
    intro h
    rw [specPolyHash, specPolyHash, ih (by omega)]
    rw [List.getD_append _ _ _ _ (by omega)]

theorem hashLoop_eq_specPolyHash (bs : List Nat) :
    hashLoop 0 bs = specPolyHash bs bs.length := by
  induction bs using List.reverseRecOn with
  | nil => rfl
  | append_singleton bs b ih =>
    rw [hashLoop_concat, List.length_append, List.length_singleton]
    rw [specPolyHash, specPolyHash_append bs [b] bs.length (le_refl _), ih]
    have : (bs ++ [b]).getD bs.length 0 = b := by
      rw [List.getD_append_right _ _ _ _ (le_refl _)]
      simp [List.getD]
    rw [this, Nat.mul_comm]

/-- C7: hashString equals the polynomial hash over the UTF-8 bytes of
its input, h 0 = 0 and h (i+1) = (31 * h i + b i) mod 2 ^ 32, rendered
as lowercase hexadecimal without leading-zero padding (value faithful,
digits lowercase hex, no leading zero digit, and the single digit 0 for
the zero hash); it is determined by the UTF-8 encoding of the input, so
strings with equal encodings receive equal hashes. -/
theorem hashString_is_poly_hash_hex (s : Str) :
    hashString s = toHex (specPolyHash (utf8Bytes s) (utf8Bytes s).length)
    ∧ (∀ t : Str, utf8Bytes s = utf8Bytes t → hashString s = hashString t)
    ∧ (∀ c ∈ hashString s, isHexLowerDigit c = true)
    ∧ hexValue (hashString s) = specPolyHash (utf8Bytes s) (utf8Bytes s).length
    ∧ (specPolyHash (utf8Bytes s) (utf8Bytes s).length ≠ 0 →
        (hashString s).head? ≠ some '0')
    ∧ (specPolyHash (utf8Bytes s) (utf8Bytes s).length = 0 → hashString s = ['0']) := by
  have hmain : hashLoop 0 (utf8Bytes s) = specPolyHash (utf8Bytes s) (utf8Bytes s).length :=
    hashLoop_eq_specPolyHash _
  refine ⟨by rw [hashString, hmain], ?_, ?_, ?_, ?_, ?_⟩
  · intro t ht
    rw [hashString, hashString, ht]
  · intro c hc
    rw [hashString] at hc
    by_cases h0 : hashLoop 0 (utf8Bytes s) = 0
    · rw [h0] at hc
      rcases List.mem_singleton.1 (by simpa [toHex] using hc) with rfl
      decide
    · rw [toHex_eq_ref _ h0] at hc
      exact hexDigitsRef_alphabet _ c hc
  · rw [hashString, ← hmain]
    by_cases h0 : hashLoop 0 (utf8Bytes s) = 0
    · rw [h0]; decide
    · rw [toHex_eq_ref _ h0, hexValue]
      have := hexDigitsRef_value (hashLoop 0 (utf8Bytes s)) 0
      simpa using this
  · intro hne
    rw [hashString, toHex_eq_ref _ (by rw [hmain]; exact hne)]
    exact hexDigitsRef_head _ (by rw [hmain]; exact hne)
  · intro hz
    rw [hashString, ← hmain] at *
    rw [hz]
    rfl

/-- Witness for C7 at a concrete input: the first and the two final
conjuncts instantiated at the two-character string ab, whose hash value
is nonzero, and the determinism conjunct applied to an equal-encoding
pair. -/
theorem hashString_is_poly_hash_hex_witness :
    (hashString "ab".data = toHex (specPolyHash (utf8Bytes "ab".data) (utf8Bytes "ab".data).length))
    ∧ (hashString "ab".data).head? ≠ some '0'
    ∧ hashString "ab".data = hashString "ab".data := by
  refine ⟨(hashString_is_poly_hash_hex "ab".data).1, ?_, ?_⟩
  · exact (hashString_is_poly_hash_hex "ab".data).2.2.2.2.1 (by decide)
  · exact (hashString_is_poly_hash_hex "ab".data).2.1 "ab".data (by decide)

/-! ### Lemmas about collapseRuns and stripEdgeDashes for claim C10 -/

theorem mem_collapseRunsAux (p : Char → Bool) (r : Char) :
    ∀ (inRun : Bool) (l : Str) (c : Char), c ∈ collapseRunsAux p r inRun l →
      c = r ∨ (c ∈ l ∧ p c = false) := by
  intro inRun l
  induction l generalizing inRun with
  | nil => intro c hc; simp [collapseRunsAux] at hc
  | cons x rest ih =>
    intro c hc
    rw [collapseRunsAux] at hc
    by_cases hx : p x = true
    · simp only [hx, if_true] at hc
      rcases List.mem_append.1 hc with h1 | h1
      · cases inRun with
        | true => simp at h1
        | false =>
          simp only [Bool.false_eq_true, if_false, List.mem_singleton] at h1
          exact Or.inl h1
      · rcases ih true c h1 with h2 | h2
        · exact Or.inl h2
        · exact Or.inr ⟨List.mem_cons_of_mem _ h2.1, h2.2⟩
    · simp only [hx, if_false] at hc
      rcases List.mem_cons.1 hc with rfl | h1
      · exact Or.inr ⟨List.mem_cons_self _ _, by simpa using hx⟩
      · rcases ih false c h1 with h2 | h2
        · exact Or.inl h2
        · exact Or.inr ⟨List.mem_cons_of_mem _ h2.1, h2.2⟩

theorem head_collapseRunsAux_run (p : Char → Bool) (r : Char) (hpr : p r = true) :
    ∀ (l : Str) (c : Char), (collapseRunsAux p r true l).head? = some c → c ≠ r := by
  intro l
  induction l with
  | nil => intro c hc; simp [collapseRunsAux] at hc
  | cons x rest ih =>
    intro c hc
    rw [collapseRunsAux] at hc
    by_cases hx : p x = true
    · simp only [hx, if_true, List.nil_append] at hc
      exact ih c hc
    · simp only [hx, if_false, List.head?_cons] at hc
      rcases Option.some_inj.1 hc with rfl
      intro hcr
      rw [hcr, hpr] at hx
      exact hx rfl

theorem chain_collapseRunsAux (p : Char → Bool) (r : Char) (hpr : p r = true) :
    ∀ (inRun : Bool) (l : Str),
      List.Chain' (fun a b => a ≠ r ∨ b ≠ r) (collapseRunsAux p r inRun l) := by
  intro inRun l
  induction l generalizing inRun with
  | nil => simp [collapseRunsAux]
  | cons x rest ih =>
    rw [collapseRunsAux]
    by_cases hx : p x = true
    · simp only [hx, if_true]
      cases inRun with
      | true => simpa using ih true
      | false =>
        simp only [Bool.false_eq_true, if_false, List.singleton_append]
        rw [List.chain'_cons']
        refine ⟨?_, ih true⟩
        intro b hb
        exact Or.inr (head_collapseRunsAux_run p r hpr rest b hb)
    · simp only [hx, Bool.false_eq_true, if_false]
      rw [List.chain'_cons']
      refine ⟨?_, ih false⟩
      intro b _
      left
      intro hxr
      rw [hxr, hpr] at hx
      exact hx rfl

theorem head_collapseRuns (p : Char → Bool) (r : Char) (l : Str)
    (hl : ∀ c, l.head? = some c → p c = false) :
    (collapseRuns p r l).head? = l.head? := by
  rcases l with _ | ⟨x, rest⟩
  · rfl
  · rw [collapseRuns, collapseRunsAux]
    have hx := hl x rfl
    simp [hx]

theorem getLast_collapseRunsAux (p : Char → Bool) (r : Char) :
    ∀ (l : Str) (inRun : Bool) (c : Char), l.getLast? = some c → p c = false →
      (collapseRunsAux p r inRun l).getLast? = some c := by
  intro l
  induction l with
  | nil => intro inRun c hc _; simp at hc
  | cons x rest ih =>
    intro inRun c hc hpc
    rcases rest with _ | ⟨y, rest'⟩
    · simp only [List.getLast?_singleton] at hc
      rcases Option.some_inj.1 hc with rfl
      simp [collapseRunsAux, hpc]
    · rw [List.getLast?_cons_cons] at hc
      rw [collapseRunsAux]
      by_cases hx : p x = true
      · simp only [hx, if_true]
        have htail := ih true c hc hpc
        rw [List.getLast?_append_of_ne_nil]
        · exact htail
        · intro hemp
          rw [hemp] at htail
          simp at htail
      · simp only [hx, Bool.false_eq_true, if_false]
        have htail := ih false c hc hpc
        rcases hxs : collapseRunsAux p r false (y :: rest') with _ | ⟨z, zs⟩
        · rw [hxs] at htail
          simp at htail
        · rw [hxs] at htail
          rw [List.getLast?_cons_cons]
          exact htail

theorem allP_collapseRunsAux (p : Char → Bool) (r : Char) :
    ∀ (l : Str), (∀ c ∈ l, p c = true) →
      (collapseRunsAux p r true l = [] ∧
        collapseRunsAux p r false l = (if l = [] then [] else [r])) := by
  intro l
  induction l with
  | nil => intro _; exact ⟨rfl, rfl⟩
  | cons x rest ih =>
    intro hall
    have hx : p x = true := hall x (List.mem_cons_self _ _)
    have ihr := ih (fun c hc => hall c (List.mem_cons_of_mem _ hc))
    constructor
    · rw [collapseRunsAux]
      simp [hx, ihr.1]
    · rw [collapseRunsAux]
      simp [hx, ihr.1]

theorem head?_dropWhile_not (p : Char → Bool) :
    ∀ (l : Str) (c : Char), (l.dropWhile p).head? = some c → p c = false := by
  intro l
  induction l with
  | nil => intro c hc; simp at hc
  | cons x rest ih =>
    intro c hc
    rw [List.dropWhile_cons] at hc
    by_cases hx : p x = true
    · simp only [hx, if_true] at hc
      exact ih c hc
    · simp only [hx, if_false, List.head?_cons] at hc
      rcases Option.some_inj.1 hc with rfl
      simpa using hx

theorem getLast?_dropWhile (p : Char → Bool) :
    ∀ (l : Str), l.dropWhile p ≠ [] → (l.dropWhile p).getLast? = l.getLast? := by
  intro l
  induction l with
  | nil => intro h; simp at h
  | cons x rest ih =>
    intro h
    rw [List.dropWhile_cons] at h ⊢
    by_cases hx : p x = true
    · simp only [hx, if_true] at h ⊢
      have hrest : rest ≠ [] := by
        intro he; rw [he] at h; simp at h
      rcases rest with _ | ⟨y, rest'⟩
      · exact absurd rfl hrest
      · rw [List.getLast?_cons_cons]
        exact ih h
    · simp only [hx, Bool.false_eq_true, if_false]

theorem mem_stripEdgeDashes (l : Str) (c : Char) (h : c ∈ stripEdgeDashes l) : c ∈ l := by
  rw [stripEdgeDashes] at h
  rw [List.mem_reverse] at h
  have h2 := (List.dropWhile_sublist (fun c => c = '-')).subset h
  rw [List.mem_reverse] at h2
  exact (List.dropWhile_sublist (fun c => c = '-')).subset h2

theorem head?_stripEdgeDashes (l : Str) (c : Char)
    (h : (stripEdgeDashes l).head? = some c) : c ≠ '-' := by
  rw [stripEdgeDashes, List.head?_reverse] at h
  have hne : (l.dropWhile (fun c => c = '-')).reverse.dropWhile (fun c => c = '-') ≠ [] := by
    intro he; rw [he] at h; simp at h
  rw [getLast?_dropWhile _ _ hne, List.getLast?_reverse] at h
  have := head?_dropWhile_not (fun c => c = '-') l c h
  simpa using this

theorem getLast?_stripEdgeDashes (l : Str) (c : Char)
    (h : (stripEdgeDashes l).getLast? = some c) : c ≠ '-' := by
  rw [stripEdgeDashes, List.getLast?_reverse] at h
  have := head?_dropWhile_not (fun c => c = '-') (l.dropWhile (fun c => c = '-')).reverse c h
  simpa using this

/-- C10: slugify always returns a non-empty string of ASCII
alphanumerics and single hyphens, with no leading hyphen, no trailing
hyphen and no two consecutive hyphens; and an input without any
alphanumeric character produces the fallback value bundle. -/
theorem slugify_wellformed (s : Str) :
    slugify s ≠ []
    ∧ (∀ c ∈ slugify s, isAlnum c = true ∨ c = '-')
    ∧ List.Chain' (fun a b => a ≠ '-' ∨ b ≠ '-') (slugify s)
    ∧ (slugify s).head? ≠ some '-'
    ∧ (slugify s).getLast? ≠ some '-'
    ∧ ((∀ c ∈ s, isAlnum c = false) → slugify s = "bundle".data) := by
  have hdef : slugify s =
      (if collapseRuns (fun c => c = '-') '-'
            (stripEdgeDashes (collapseRuns (fun c => !isAlnum c) '-' (backslashToSlash s))) = []
       then "bundle".data
       else collapseRuns (fun c => c = '-') '-'
            (stripEdgeDashes (collapseRuns (fun c => !isAlnum c) '-' (backslashToSlash s)))) := rfl
  have hchainBundle : List.Chain' (fun a b => a ≠ '-' ∨ b ≠ '-') "bundle".data := by
    refine List.chain'_cons.2 ⟨by decide, ?_⟩
    refine List.chain'_cons.2 ⟨by decide, ?_⟩
    refine List.chain'_cons.2 ⟨by decide, ?_⟩
    refine List.chain'_cons.2 ⟨by decide, ?_⟩
    refine List.chain'_cons.2 ⟨by decide, ?_⟩
    exact List.chain'_singleton _
  have hbundle : (∀ c ∈ s, isAlnum c = false) → slugify s = "bundle".data := by
    intro hall
    have hall1 : ∀ c ∈ backslashToSlash s, (!isAlnum c) = true := by
      intro c hc
      rw [backslashToSlash] at hc
      rcases List.mem_map.1 hc with ⟨d, hd, hdc⟩
      by_cases hbd : d = '\\'
      · subst hbd
        rw [if_pos rfl] at hdc
        rw [← hdc]
        decide
      · rw [if_neg hbd] at hdc
        rw [← hdc]
        simp [hall d hd]
    have h2 : collapseRuns (fun c => !isAlnum c) '-' (backslashToSlash s) =
        (if backslashToSlash s = [] then [] else ['-']) :=
      (allP_collapseRunsAux (fun c => !isAlnum c) '-' (backslashToSlash s) hall1).2
    rw [hdef, h2]
    by_cases hemp : backslashToSlash s = []
    · rw [if_pos hemp]
      simp [stripEdgeDashes, collapseRuns, collapseRunsAux]
    · rw [if_neg hemp]
      have h5 : stripEdgeDashes ['-'] = [] := by decide
      rw [h5]
      simp [collapseRuns, collapseRunsAux]
  by_cases h4 : collapseRuns (fun c => c = '-') '-'
      (stripEdgeDashes (collapseRuns (fun c => !isAlnum c) '-' (backslashToSlash s))) = []
  · have hb : slugify s = "bundle".data := by rw [hdef, if_pos h4]
    rw [hb]
    exact ⟨by decide, by decide, hchainBundle, by decide, by decide, fun _ => rfl⟩
  · have hb : slugify s = collapseRuns (fun c => c = '-') '-'
        (stripEdgeDashes (collapseRuns (fun c => !isAlnum c) '-' (backslashToSlash s))) := by
      rw [hdef, if_neg h4]
    rw [hb]
    refine ⟨h4, ?_, ?_, ?_, ?_, fun hall => by rw [← hb]; exact hbundle hall⟩
    · intro c hc
      rcases mem_collapseRunsAux _ _ _ _ _ hc with rfl | ⟨hc3, _⟩
      · exact Or.inr rfl
      · have hc2 := mem_stripEdgeDashes _ _ hc3
        rcases mem_collapseRunsAux _ _ _ _ _ hc2 with rfl | ⟨_, hpc⟩
        · exact Or.inr rfl
        · left
          simpa using hpc
    · exact chain_collapseRunsAux _ _ (by decide) false _
    · have hhl : ∀ c, (stripEdgeDashes (collapseRuns (fun c => !isAlnum c) '-'
          (backslashToSlash s))).head? = some c → decide (c = '-') = false := by
        intro c hc
        have := head?_stripEdgeDashes _ _ hc
        simpa using this
      rw [head_collapseRuns _ _ _ hhl]
      intro hcon
      exact head?_stripEdgeDashes _ _ hcon rfl
    · have h3ne : stripEdgeDashes (collapseRuns (fun c => !isAlnum c) '-' (backslashToSlash s)) ≠ [] := by
        intro he
        rw [collapseRuns, he] at h4
        exact h4 rfl
      have hlast : ∃ c, (stripEdgeDashes (collapseRuns (fun c => !isAlnum c) '-'
          (backslashToSlash s))).getLast? = some c := by
        rcases hx : (stripEdgeDashes (collapseRuns (fun c => !isAlnum c) '-'
            (backslashToSlash s))).getLast? with _ | c
        · rw [List.getLast?_eq_none_iff] at hx
          exact absurd hx h3ne
        · exact ⟨c, rfl⟩
      rcases hlast with ⟨c, hc⟩
      have hcne := getLast?_stripEdgeDashes _ _ hc
      rw [collapseRuns, getLast_collapseRunsAux _ _ _ _ _ hc (by simpa using hcne)]
      intro hcon
      exact hcne (Option.some_inj.1 hcon)

/-- Witness for C10: the theorem applied to a concrete mixed input and,
for the final conjunct, to an input without alphanumerics. -/
theorem slugify_wellformed_witness :
    slugify "a//b!".data ≠ []
    ∧ (slugify "a//b!".data).head? ≠ some '-'
    ∧ slugify "_/!".data = "bundle".data := by
  refine ⟨(slugify_wellformed "a//b!".data).1,
    (slugify_wellformed "a//b!".data).2.2.2.1, ?_⟩
  exact (slugify_wellformed "_/!".data).2.2.2.2.2 (by decide)

/-- C2: compilePatternToRegex returns null exactly for the empty
pattern, the root pattern, and patterns containing neither a colon nor a
star; every other pattern compiles to the anchored regex source built
from the non-empty slash-separated segments, a star segment giving a
dot-star group, a colon-led segment giving a no-slash group, and any
other segment appearing literally with every regex metacharacter
escaped by a backslash. -/
theorem compilePatternToRegex_spec (pattern : Str) :
    (compilePatternToRegex pattern = none ↔
      (pattern = [] ∨ pattern = ['/']
        ∨ (pattern.contains ':' = false ∧ pattern.contains '*' = false)))
    ∧ (∀ r, compilePatternToRegex pattern = some r →
        r = "^/".data
            ++ List.intercalate ['/'] (((pattern.splitOn '/').filter (fun s => s ≠ [])).map
              (fun segment =>
                if segment = ['*'] then "(.*)".data
                else if segment.head? = some ':' then "([^/]+)".data
                else segment.flatMap (fun c => if c ∈ regexSpecials then ['\\', c] else [c])))
            ++ ['$']) := by
  by_cases hA : pattern = [] <;>
    by_cases hB : pattern = ['/'] <;>
      by_cases hC : pattern.contains ':' = true <;>
        by_cases hD : pattern.contains '*' = true <;>
          constructor <;>
            simp_all [compilePatternToRegex, escapeRegex]

/-- Witness for C2: a parameterised pattern compiles to its anchored
regex source, and a literal pattern compiles to null. -/
theorem compilePatternToRegex_spec_witness :
    compilePatternToRegex "/blog".data = none
    ∧ ("^/blog/([^/]+)$".data : Str) = "^/".data
        ++ List.intercalate ['/'] ((("/blog/:id".data.splitOn '/').filter (fun s => s ≠ [])).map
          (fun segment =>
            if segment = ['*'] then "(.*)".data
            else if segment.head? = some ':' then "([^/]+)".data
            else segment.flatMap (fun c => if c ∈ regexSpecials then ['\\', c] else [c])))
        ++ ['$'] := by
  constructor
  · exact (compilePatternToRegex_spec "/blog".data).1.2 (Or.inr (Or.inr (by decide)))
  · exact (compilePatternToRegex_spec "/blog/:id".data).2 "^/blog/([^/]+)$".data (by decide)

/-! ### Helper lemmas about extension stripping for claims C6 and C8 -/

theorem getLast?_of_suffix (a l : Str) (h : a <:+ l) (ha : a ≠ []) :
    l.getLast? = a.getLast? := by
  rcases h with ⟨t, rfl⟩
  exact List.getLast?_append_of_ne_nil _ ha

theorem suffix_of_append_eq (a b x : Str) (h : a <:+ x ++ b) (hlen : a.length = b.length) :
    a = b := by
  rcases h with ⟨t, ht⟩
  have hl : t.length = x.length := by
    have := congrArg List.length ht
    simp only [List.length_append] at this
    omega
  have h1 : (t ++ a).drop t.length = a := List.drop_left t a
  rw [ht, hl, List.drop_left x b] at h1
  exact h1.symm

theorem dropEnd_append (x e : Str) : dropEnd (x ++ e) e.length = x := by
  rw [dropEnd]
  simp only [List.length_append, Nat.add_sub_cancel]
  exact List.take_left x e

theorem stripHtmlExt_append (x : Str) : stripHtmlExt (x ++ ".html".data) = x := by
  rw [stripHtmlExt, if_pos]
  · exact dropEnd_append x ".html".data
  · exact List.isSuffixOf_iff_suffix.2 (List.suffix_append x _)

theorem stripSrcExt_append (x ext : Str)
    (h : ext ∈ [".tsx".data, ".jsx".data, ".ts".data, ".js".data]) :
    stripSrcExt (x ++ ext) = x := by
  have hsufSelf : ∀ e : Str, (e.isSuffixOf (x ++ e)) = true :=
    fun e => List.isSuffixOf_iff_suffix.2 (List.suffix_append x e)
  have hnotLen : ∀ a b : Str, a.length = b.length → a ≠ b →
      (a.isSuffixOf (x ++ b)) = false := by
    intro a b hlen hne
    rw [Bool.eq_false_iff]
    intro hcon
    exact hne (suffix_of_append_eq a b x (List.isSuffixOf_iff_suffix.1 hcon) hlen)
  have hnotLast : ∀ a b : Str, a ≠ [] → b ≠ [] → a.getLast? ≠ b.getLast? →
      (a.isSuffixOf (x ++ b)) = false := by
    intro a b ha hb hne
    rw [Bool.eq_false_iff]
    intro hcon
    have h1 := getLast?_of_suffix a (x ++ b) (List.isSuffixOf_iff_suffix.1 hcon) ha
    have h2 := List.getLast?_append_of_ne_nil x hb
    rw [h2] at h1
    exact hne h1.symm
  rcases List.mem_cons.1 h with rfl | h
  · rw [stripSrcExt, if_pos (hsufSelf _)]
    exact dropEnd_append x _
  rcases List.mem_cons.1 h with rfl | h
  · rw [stripSrcExt, if_neg, if_pos (hsufSelf _)]
    · exact dropEnd_append x _
    · simp [hnotLen ".tsx".data ".jsx".data rfl (by decide)]
  rcases List.mem_cons.1 h with rfl | h
  · rw [stripSrcExt, if_neg, if_neg, if_pos (hsufSelf _)]
    · exact dropEnd_append x _
    · simp [hnotLast ".jsx".data ".ts".data (by decide) (by decide) (by decide)]
    · simp [hnotLast ".tsx".data ".ts".data (by decide) (by decide) (by decide)]
  rcases List.mem_cons.1 h with rfl | h
  · rw [stripSrcExt, if_neg, if_neg, if_neg, if_pos (hsufSelf _)]
    · exact dropEnd_append x _
    · simp [hnotLen ".ts".data ".js".data rfl (by decide)]
    · simp [hnotLast ".jsx".data ".js".data (by decide) (by decide) (by decide)]
    · simp [hnotLast ".tsx".data ".js".data (by decide) (by decide) (by decide)]
  · simp at h

/-- C6: on a route source path assembled from slash-free segments and a
source extension, filePathToRoute drops the extension, maps the bare
index file to the root route, drops a trailing index segment, turns
bracketed segments into colon parameters and three-dot bracketed
segments into stars, keeps all other segments verbatim, and returns the
root route when no segments remain, else a slash-joined path. -/
theorem filePathToRoute_spec (segs : List Str) (ext : Str)
    (h1 : segs ≠ []) (h2 : ∀ s ∈ segs, '/' ∉ s)
    (h3 : ext ∈ [".tsx".data, ".jsx".data, ".ts".data, ".js".data]) :
    filePathToRoute (List.intercalate ['/'] segs ++ ext) =
      (if segs = ["index".data] then ['/']
       else
        if (if segs.getLast? = some "index".data then segs.dropLast else segs).map
            mapRouteSegment = []
        then ['/']
        else '/' :: List.intercalate ['/']
          ((if segs.getLast? = some "index".data then segs.dropLast else segs).map
            mapRouteSegment)) := by
  have hstrip := stripSrcExt_append (List.intercalate ['/'] segs) ext h3
  have hsplit := List.splitOn_intercalate segs '/' h2 h1
  simp only [filePathToRoute]
  rw [hstrip, hsplit]

/-- Witness for C6: the theorem instantiated on the route source path
blog/[id].tsx. -/
theorem filePathToRoute_spec_witness :
    filePathToRoute (List.intercalate ['/'] ["blog".data, "[id]".data] ++ ".tsx".data) =
      (if ["blog".data, "[id]".data] = [("index".data : Str)] then ['/']
       else
        if (if ["blog".data, "[id]".data].getLast? = some "index".data
            then (["blog".data, "[id]".data] : List Str).dropLast
            else ["blog".data, "[id]".data]).map mapRouteSegment = []
        then ['/']
        else '/' :: List.intercalate ['/']
          ((if ["blog".data, "[id]".data].getLast? = some "index".data
            then (["blog".data, "[id]".data] : List Str).dropLast
            else ["blog".data, "[id]".data]).map mapRouteSegment)) :=
  filePathToRoute_spec ["blog".data, "[id]".data] ".tsx".data (by decide) (by decide)
    (by decide)

/-! ### Claim C8: equivalence of the two route mappings -/

theorem mapRouteSegment_ne_nil (seg : Str) (h : seg ≠ []) : mapRouteSegment seg ≠ [] := by
  rw [mapRouteSegment]
  by_cases hc : (seg.head? = some '[' && seg.getLast? = some ']') = true
  · rw [if_pos hc]
    show (if "...".data.isPrefixOf ((seg.drop 1).dropLast) then ['*']
          else ':' :: ((seg.drop 1).dropLast)) ≠ []
    by_cases hs : ("...".data.isPrefixOf ((seg.drop 1).dropLast)) = true
    · rw [if_pos hs]
      simp
    · rw [if_neg hs]
      simp
  · rw [if_neg hc]
    exact h

theorem inferMapSegment_eq_mapRouteSegment (seg : Str) (h : seg ≠ []) :
    inferMapSegment seg = mapRouteSegment seg := by
  rw [inferMapSegment, mapRouteSegment]
  by_cases hc : (seg.head? = some '[' && seg.getLast? = some ']') = true
  · rw [if_pos hc, if_pos hc]
    rw [Bool.and_eq_true] at hc
    rcases hc with ⟨hh, hl⟩
    rw [decide_eq_true_eq] at hh hl
    rcases seg with _ | ⟨c, t⟩
    · exact absurd rfl h
    · rw [List.head?_cons] at hh
      rcases Option.some_inj.1 hh with rfl
      have ht : t ≠ [] := by
        intro he
        subst he
        simp [List.getLast?_singleton] at hl
      have hdrop : (('[' :: t).drop 1) = t := rfl
      have hlt : t.getLast? = some ']' := by
        rcases t with _ | ⟨y, u⟩
        · exact absurd rfl ht
        · rw [List.getLast?_cons_cons] at hl
          exact hl
      have hiff : ("[...".data.isPrefixOf ('[' :: t)) = ("...".data.isPrefixOf t.dropLast) := by
        have h1 : ("[...".data.isPrefixOf ('[' :: t)) = ("...".data.isPrefixOf t) := by
          simp [List.isPrefixOf]
        rw [h1, Bool.eq_iff_iff]
        simp only [List.isPrefixOf_iff_prefix]
        constructor
        · intro h3
          rcases h3 with ⟨u, hu⟩
          rcases u with _ | ⟨z, zs⟩
          · rw [List.append_nil] at hu
            rw [← hu] at hlt
            exact absurd hlt (by decide)
          · rw [← hu, List.dropLast_append_cons]
            exact ⟨(z :: zs).dropLast, rfl⟩
        · intro h2
          exact h2.trans (List.dropLast_prefix t)
      rw [hdrop, hiff]
  · rw [if_neg hc, if_neg hc]

theorem inferNormalize_eq_map (segs : List Str) (h : ∀ s ∈ segs, s ≠ []) :
    inferNormalize segs =
      (if segs.getLast? = some "index".data then segs.dropLast else segs).map
        mapRouteSegment := by
  induction segs with
  | nil => simp [inferNormalize]
  | cons seg rest ih =>
    rcases rest with _ | ⟨y, t⟩
    · have hseg : seg ≠ [] := h seg (List.mem_cons_self _ _)
      rw [inferNormalize]
      by_cases hidx : seg = "index".data
      · rw [if_pos hidx]
        simp [List.getLast?_singleton, hidx]
      · rw [if_neg hidx]
        have hmne : inferMapSegment seg ≠ [] := by
          rw [inferMapSegment_eq_mapRouteSegment seg hseg]
          exact mapRouteSegment_ne_nil seg hseg
        simp only [hmne, if_neg]
        have : ([seg] : List Str).getLast? = some seg := List.getLast?_singleton seg
        rw [this]
        have hns : ¬ (some seg = some ("index".data : Str)) := by
          intro hcon
          exact hidx (Option.some_inj.1 hcon)
        rw [if_neg hns]
        simp [inferMapSegment_eq_mapRouteSegment seg hseg]
    · have hseg : seg ≠ [] := h seg (List.mem_cons_self _ _)
      have hrest : ∀ s ∈ y :: t, s ≠ [] := fun s hs => h s (List.mem_cons_of_mem _ hs)
      have heq : inferNormalize (seg :: y :: t) =
          (let m := inferMapSegment seg; if m = [] then [] else [m]) ++
            inferNormalize (y :: t) := rfl
      rw [heq, ih hrest]
      have hmne : inferMapSegment seg ≠ [] := by
        rw [inferMapSegment_eq_mapRouteSegment seg hseg]
        exact mapRouteSegment_ne_nil seg hseg
      simp only [hmne, if_neg]
      rw [List.getLast?_cons_cons]
      by_cases hcond : (y :: t).getLast? = some ("index".data : Str)
      · rw [if_pos hcond, if_pos hcond]
        rw [List.dropLast_cons₂, List.map_cons]
        simp [inferMapSegment_eq_mapRouteSegment seg hseg]
      · rw [if_neg hcond, if_neg hcond]
        simp [inferMapSegment_eq_mapRouteSegment seg hseg]

/-- C8: on any relative path whose slash-separated segments are all
non-empty, the route inferred by the builder from the html file equals
the route computed by the codegen from the corresponding source file. -/
theorem inferRoute_eq_filePathToRoute (b : Str) (h : ∀ s ∈ b.splitOn '/', s ≠ []) :
    inferRouteFromFile (b ++ ".html".data) = filePathToRoute (b ++ ".tsx".data) := by
  simp only [inferRouteFromFile, filePathToRoute]
  rw [stripHtmlExt_append, stripSrcExt_append b ".tsx".data (by simp)]
  have hfilter : (b.splitOn '/').filter (fun s => s ≠ []) = b.splitOn '/' := by
    rw [List.filter_eq_self]
    intro a ha
    simpa using h a ha
  rw [hfilter, inferNormalize_eq_map (b.splitOn '/') h]

/-- Witness for C8: both implementations send blog/[id] to the same
route. -/
theorem inferRoute_eq_filePathToRoute_witness :
    inferRouteFromFile ("blog/[id]".data ++ ".html".data) =
      filePathToRoute ("blog/[id]".data ++ ".tsx".data) :=
  inferRoute_eq_filePathToRoute "blog/[id]".data (by decide)

theorem find?_eq_some_split {α : Type} (p : α → Bool) (l : List α) (a : α)
    (h : l.find? p = some a) :
    ∃ pre post, l = pre ++ a :: post ∧ p a = true ∧ ∀ x ∈ pre, p x = false := by
  induction l with
  | nil => simp at h
  | cons x rest ih =>
    by_cases hx : p x = true
    · rw [List.find?_cons_of_pos _ hx] at h
      rcases Option.some_inj.1 h with rfl
      exact ⟨[], rest, rfl, hx, by simp⟩
    · rw [List.find?_cons_of_neg _ (by simpa using hx)] at h
      rcases ih h with ⟨pre, post, hl, ha, hpre⟩
      refine ⟨x :: pre, post, by rw [hl]; rfl, ha, ?_⟩
      intro y hy
      rcases List.mem_cons.1 hy with rfl | hy2
      · simpa using hx
      · exact hpre y hy2

/-- C1: the fetch handler of the emitted worker first normalises the
pathname by removing one trailing slash unless the pathname is exactly
the root slash; a pathname stored in the asset map is answered with the
stored body, its stored content type and the asset cache-control
header, taking precedence over every HTML route; otherwise the first
route in table order whose pattern equals the normalised path or whose
matcher accepts it is served as a 200 HTML response; otherwise the
worker answers 404 Not Found. -/
theorem workerFetch_spec (routes : List HtmlRoute) (assets : List (Str × StaticAsset))
    (htmlCache assetCache : Str) (pathname : Str) :
    (normalizePath pathname =
      (if pathname ≠ ['/'] ∧ pathname.getLast? = some '/'
       then pathname.dropLast else pathname))
    ∧ (∀ a, mapGet assets (normalizePath pathname) = some a →
        workerFetch routes assets htmlCache assetCache pathname =
          { status := 200, body := a.body,
            headers := [("content-type".data, a.contentType),
                        ("cache-control".data, assetCache)] })
    ∧ (mapGet assets (normalizePath pathname) = none →
        ∀ r, matchHtmlRoute routes (normalizePath pathname) = some r →
          workerFetch routes assets htmlCache assetCache pathname =
            { status := 200, body := r.html, headers := htmlHeaders htmlCache })
    ∧ (∀ r, matchHtmlRoute routes (normalizePath pathname) = some r →
        ∃ pre post, routes = pre ++ r :: post
          ∧ routeMatches r (normalizePath pathname) = true
          ∧ ∀ r' ∈ pre, routeMatches r' (normalizePath pathname) = false)
    ∧ (mapGet assets (normalizePath pathname) = none →
        matchHtmlRoute routes (normalizePath pathname) = none →
          workerFetch routes assets htmlCache assetCache pathname =
            { status := 404, body := "Not Found".data, headers := [] }) := by
  refine ⟨?_, ?_, ?_, ?_, ?_⟩
  · rw [normalizePath]
    by_cases hl : pathname.getLast? = some '/'
    · by_cases h1 : 1 < pathname.length
      · rw [if_pos (by simp [hl, h1])]
        have hne : pathname ≠ ['/'] := by
          intro he
          rw [he] at h1
          simp at h1
        rw [if_pos ⟨hne, hl⟩]
      · have hp : pathname = ['/'] := by
          rcases pathname with _ | ⟨c, t⟩
          · simp at hl
          · rcases t with _ | ⟨d, u⟩
            · simp only [List.getLast?_singleton] at hl
              rw [Option.some_inj.1 hl]
            · exfalso
              apply h1
              simp
        subst hp
        rw [if_neg (by simp), if_neg (by simp)]
    · rw [if_neg (by simp [hl]), if_neg (by intro hcon; exact hl hcon.2)]
  · intro a ha
    have hserve : serveAsset assets assetCache (normalizePath pathname) =
        some { status := 200, body := a.body,
               headers := [("content-type".data, a.contentType),
                           ("cache-control".data, assetCache)] } := by
      rw [serveAsset, ha]
      rfl
    simp only [workerFetch, hserve]
  · intro hnone r hr
    have hserve : serveAsset assets assetCache (normalizePath pathname) = none := by
      rw [serveAsset, hnone]
      rfl
    simp only [workerFetch, hserve, hr]
  · intro r hr
    exact find?_eq_some_split _ routes r hr
  · intro hnone hroute
    have hserve : serveAsset assets assetCache (normalizePath pathname) = none := by
      rw [serveAsset, hnone]
      rfl
    simp only [workerFetch, hserve, hroute]

/-- Witness for C1: a table with one literal route and one matcher
route and a one-entry asset map; the asset path is served from the
asset map even though a route shares the pattern, the matcher route
serves an HTML response for a parameterised path with a trailing slash,
and an unknown path receives 404. -/
theorem workerFetch_spec_witness :
    workerFetch
        [⟨"/a.js".data, "HA".data, none⟩,
         ⟨"/b/:id".data, "HB".data, some (fun p => "/b/".data.isPrefixOf p)⟩]
        [("/a.js".data, ⟨"BODY".data, "text/javascript".data⟩)]
        "hc".data "ac".data "/a.js".data =
      { status := 200, body := "BODY".data,
        headers := [("content-type".data, "text/javascript".data),
                    ("cache-control".data, "ac".data)] }
    ∧ workerFetch
        [⟨"/a.js".data, "HA".data, none⟩,
         ⟨"/b/:id".data, "HB".data, some (fun p => "/b/".data.isPrefixOf p)⟩]
        [("/a.js".data, ⟨"BODY".data, "text/javascript".data⟩)]
        "hc".data "ac".data "/b/7/".data =
      { status := 200, body := "HB".data, headers := htmlHeaders "hc".data }
    ∧ workerFetch
        [⟨"/a.js".data, "HA".data, none⟩,
         ⟨"/b/:id".data, "HB".data, some (fun p => "/b/".data.isPrefixOf p)⟩]
        [("/a.js".data, ⟨"BODY".data, "text/javascript".data⟩)]
        "hc".data "ac".data "/nope".data =
      { status := 404, body := "Not Found".data, headers := [] } := by
  refine ⟨?_, ?_, ?_⟩
  · exact (workerFetch_spec _ _ _ _ _).2.1 ⟨"BODY".data, "text/javascript".data⟩ (by rfl)
  · exact (workerFetch_spec _ _ _ _ _).2.2.1 (by rfl)
      ⟨"/b/:id".data, "HB".data, some (fun p => "/b/".data.isPrefixOf p)⟩ (by rfl)
  · exact (workerFetch_spec _ _ _ _ _).2.2.2.2 (by rfl) (by rfl)

theorem cacheGet_cacheSet (entries : List (Str × WorkerAsset)) (k : Str) (v : WorkerAsset) :
    cacheGet (cacheSet entries k v) k = some v := by
  rw [cacheSet]
  by_cases h : entries.any (fun e => e.1 == k) = true
  · rw [if_pos h]
    induction entries with
    | nil => simp at h
    | cons e es ih =>
      by_cases hk : (e.1 == k) = true
      · rw [cacheGet]
        simp only [List.map_cons, hk, if_pos]
        rw [List.find?_cons_of_pos _ (by simp)]
        rfl
      · rw [List.any_cons] at h
        simp only [hk, Bool.false_or] at h
        rw [cacheGet]
        simp only [List.map_cons, hk, if_neg, Bool.false_eq_true, not_false_iff]
        rw [List.find?_cons_of_neg _ (by simpa using hk)]
        exact ih h
  · rw [if_neg h]
    rw [cacheGet, List.find?_append]
    have hnone : entries.find? (fun e => e.1 == k) = none := by
      rw [List.find?_eq_none]
      intro x hx
      intro hcon
      apply h
      rw [List.any_eq_true]
      exact ⟨x, hx, hcon⟩
    rw [hnone]
    simp [List.find?_cons_of_pos]

/-- C4: compiling the same entry twice, through either compile
function, returns the identical cached asset without touching the
state, a fresh compile appends the asset to the asset table exactly
once and records it in the cache, and every produced URL path is the
sanitized assets base followed by a slugified name, a hyphen, the
content hash (the Bun artifact hash for scripts, hashString of the file
contents for CSS) and the extension. -/
theorem compileAsset_cached_content_addressed (env : BuildEnv) (p : Str) (ctx : TransformCtx) :
    (∀ a ctx', compileScriptAsset env p ctx = .ok (a, ctx') →
      compileScriptAsset env p ctx' = .ok (a, ctx')
      ∧ compileCssAsset env p ctx' = .ok (a, ctx')
      ∧ (ctx' = ctx ∨ ctx'.assets = ctx.assets ++ [a]))
    ∧ (∀ a ctx', compileCssAsset env p ctx = .ok (a, ctx') →
      compileCssAsset env p ctx' = .ok (a, ctx')
      ∧ compileScriptAsset env p ctx' = .ok (a, ctx')
      ∧ (ctx' = ctx ∨ ctx'.assets = ctx.assets ++ [a]))
    ∧ (∀ contents hash a ctx', cacheGet ctx.assetCache p = none →
        env.bunBuild p = some (contents, hash) →
        compileScriptAsset env p ctx = .ok (a, ctx') →
        a.urlPath = ctx.assetsBasePath ++ '/' ::
            (slugify (stripSrcExt (backslashToSlash (env.relativeTo p)))
              ++ '-' :: hash ++ ".js".data)
          ∧ a.contents = contents
          ∧ ctx'.assets = ctx.assets ++ [a]
          ∧ cacheGet ctx'.assetCache p = some a)
    ∧ (∀ a ctx', cacheGet ctx.assetCache p = none →
        env.cssExists p = true →
        compileCssAsset env p ctx = .ok (a, ctx') →
        a.urlPath = ctx.assetsBasePath ++ '/' ::
            (slugify (stripCssExt (backslashToSlash (env.relativeTo p)))
              ++ '-' :: hashString a.contents ++ ".css".data)
          ∧ a.contents = env.readFileF p
          ∧ ctx'.assets = ctx.assets ++ [a])
    ∧ (∀ b rest, ctx.assetsBasePath = sanitizeAssetBase b →
        ((sanitizeAssetBase b ++ ['/']).isPrefixOf (ctx.assetsBasePath ++ '/' :: rest))
          = true) := by
  refine ⟨?_, ?_, ?_, ?_, ?_⟩
  · intro a ctx' h
    rcases hcache : cacheGet ctx.assetCache p with _ | cached
    · simp only [compileScriptAsset, hcache] at h
      rcases hbuild : env.bunBuild p with _ | ⟨contents, hash⟩
      · rw [hbuild] at h
        simp at h
      · rw [hbuild] at h
        simp only [Except.ok.injEq, Prod.mk.injEq] at h
        rcases h with ⟨ha, hctx⟩
        have hc' : ctx'.assetCache = cacheSet ctx.assetCache p a := by
          rw [← hctx, ← ha]
        have hassets : ctx'.assets = ctx.assets ++ [a] := by
          rw [← hctx, ← ha]
        have hhit : cacheGet ctx'.assetCache p = some a := by
          rw [hc']
          exact cacheGet_cacheSet _ _ _
        refine ⟨?_, ?_, Or.inr hassets⟩
        · simp only [compileScriptAsset, hhit]
        · simp only [compileCssAsset, hhit]
    · simp only [compileScriptAsset, hcache] at h
      simp only [Except.ok.injEq, Prod.mk.injEq] at h
      rcases h with ⟨ha, hctx⟩
      subst hctx
      subst ha
      refine ⟨by simp [compileScriptAsset, hcache], by simp [compileCssAsset, hcache],
        Or.inl rfl⟩
  · intro a ctx' h
    rcases hcache : cacheGet ctx.assetCache p with _ | cached
    · simp only [compileCssAsset, hcache] at h
      by_cases hex : env.cssExists p = true
      · rw [if_pos hex] at h
        simp only [Except.ok.injEq, Prod.mk.injEq] at h
        rcases h with ⟨ha, hctx⟩
        have hc' : ctx'.assetCache = cacheSet ctx.assetCache p a := by
          rw [← hctx, ← ha]
        have hassets : ctx'.assets = ctx.assets ++ [a] := by
          rw [← hctx, ← ha]
        have hhit : cacheGet ctx'.assetCache p = some a := by
          rw [hc']
          exact cacheGet_cacheSet _ _ _
        refine ⟨?_, ?_, Or.inr hassets⟩
        · simp only [compileCssAsset, hhit]
        · simp only [compileScriptAsset, hhit]
      · rw [if_neg hex] at h
        simp at h
    · simp only [compileCssAsset, hcache] at h
      simp only [Except.ok.injEq, Prod.mk.injEq] at h
      rcases h with ⟨ha, hctx⟩
      subst hctx
      subst ha
      refine ⟨by simp [compileCssAsset, hcache], by simp [compileScriptAsset, hcache],
        Or.inl rfl⟩
  · intro contents hash a ctx' hcache hbuild h
    simp only [compileScriptAsset, hcache, hbuild] at h
    simp only [Except.ok.injEq, Prod.mk.injEq] at h
    rcases h with ⟨ha, hctx⟩
    refine ⟨by rw [← ha], by rw [← ha], by rw [← hctx, ← ha], ?_⟩
    have hc' : ctx'.assetCache = cacheSet ctx.assetCache p a := by
      rw [← hctx, ← ha]
    rw [hc']
    exact cacheGet_cacheSet _ _ _
  · intro a ctx' hcache hex h
    simp only [compileCssAsset, hcache] at h
    rw [if_pos hex] at h
    simp only [Except.ok.injEq, Prod.mk.injEq] at h
    rcases h with ⟨ha, hctx⟩
    refine ⟨?_, by rw [← ha], by rw [← hctx, ← ha]⟩
    rw [← ha]
  · intro b rest hb
    rw [hb]
    rw [List.isPrefixOf_iff_prefix]
    exact ⟨rest, by simp⟩

/-- Witness for C4: after one compile of the entry e the second compile
through either function returns the identical asset and leaves the
state unchanged, and the asset was appended exactly once. -/
theorem compileAsset_cached_content_addressed_witness :
    compileScriptAsset sampleEnv "e".data sampleCtx1 = .ok (sampleAsset, sampleCtx1)
    ∧ compileCssAsset sampleEnv "e".data sampleCtx1 = .ok (sampleAsset, sampleCtx1)
    ∧ (sampleCtx1 = sampleCtx0 ∨ sampleCtx1.assets = sampleCtx0.assets ++ [sampleAsset]) :=
  (compileAsset_cached_content_addressed sampleEnv "e".data sampleCtx0).1 sampleAsset
    sampleCtx1 (by rfl)

theorem extractRoutePattern_ne_nil :
    ∀ (html : Str) (s : Str), extractRoutePattern html = some s → s ≠ [] := by
  intro html
  induction html with
  | nil => intro s hs; simp [extractRoutePattern] at hs
  | cons c rest ih =>
    intro s hs
    rw [extractRoutePattern] at hs
    by_cases hp : (("data-buna-route=".data ++ [qD]).isPrefixOf (c :: rest)) = true
    · rw [if_pos hp] at hs
      by_cases hcap : ((c :: rest).drop ("data-buna-route=".data ++ [qD]).length).takeWhile
            (fun ch => ch ≠ qD) ≠ []
          ∧ ((c :: rest).drop ("data-buna-route=".data ++ [qD]).length).drop
            (((c :: rest).drop ("data-buna-route=".data ++ [qD]).length).takeWhile
              (fun ch => ch ≠ qD)).length ≠ []
      · rw [if_pos hcap] at hs
        rcases Option.some_inj.1 hs with rfl
        exact hcap.1
      · rw [if_neg hcap] at hs
        exact ih s hs
    · rw [if_neg hp] at hs
      exact ih s hs

theorem inferRouteFromFile_ne_nil (rel : Str) : inferRouteFromFile rel ≠ [] := by
  rw [inferRouteFromFile]
  by_cases h1 : (stripHtmlExt rel).splitOn '/' = ["index".data]
  · rw [if_pos h1]
    simp
  · rw [if_neg h1]
    by_cases h2 : inferNormalize (((stripHtmlExt rel).splitOn '/').filter
        (fun s => s ≠ [])) = []
    · rw [if_pos h2]
      simp
    · rw [if_neg h2]
      simp

theorem buildRoutes_ok (transform : Str → Str) (pagesDir : Str) :
    ∀ files : List (Str × Str),
      buildRoutes transform pagesDir files = .ok (files.map (fun fh =>
        { pattern := (extractRoutePattern fh.2).getD
            (inferRouteFromFile (stripPathPrefix (pagesDir ++ ['/']) fh.1)),
          html := transform fh.2,
          regex := compilePatternToRegex ((extractRoutePattern fh.2).getD
            (inferRouteFromFile (stripPathPrefix (pagesDir ++ ['/']) fh.1))) })) := by
  intro files
  induction files with
  | nil => rfl
  | cons fh rest ih =>
    rcases fh with ⟨file, html⟩
    simp only [buildRoutes]
    have hne : ¬ ((extractRoutePattern html).getD
        (inferRouteFromFile (stripPathPrefix (pagesDir ++ ['/']) file)) = []) := by
      rcases hx : extractRoutePattern html with _ | s
      · simp only [Option.getD]
        exact inferRouteFromFile_ne_nil _
      · simpa using extractRoutePattern_ne_nil html s hx
    rw [if_neg hne, ih]
    rfl

/-- C5: when the pages tree contains at least one html file, the build
succeeds, writes exactly the worker.js file, and emits one route record
per discovered html file in traversal order, whose pattern is the
data-buna-route attribute when the html has one and the route inferred
from the relative file path otherwise, whose html is the transformed
page, and whose regex is the compiled pattern; the reported route count
is the number of discovered files. -/
theorem buildCloudflareWorker_route_table (transform : Str → Str)
    (pagesDir workerDir : Str) (fs : Option (List FsNode))
    (h : collectHtmlFilesOpt pagesDir fs ≠ []) :
    buildCloudflareWorker transform pagesDir workerDir fs =
      (.ok ({ workerPath := joinPath workerDir "worker.js".data,
              routes := (collectHtmlFilesOpt pagesDir fs).length },
            (collectHtmlFilesOpt pagesDir fs).map (fun fh =>
              { pattern := (extractRoutePattern fh.2).getD
                  (inferRouteFromFile (stripPathPrefix (pagesDir ++ ['/']) fh.1)),
                html := transform fh.2,
                regex := compilePatternToRegex ((extractRoutePattern fh.2).getD
                  (inferRouteFromFile (stripPathPrefix (pagesDir ++ ['/']) fh.1))) })),
       [joinPath workerDir "worker.js".data]) := by
  simp only [buildCloudflareWorker]
  rw [if_neg h, buildRoutes_ok]
  simp

/-- Witness for C5: a one-page tree whose html carries a
data-buna-route attribute produces the one-record table. -/
theorem buildCloudflareWorker_route_table_witness :
    buildCloudflareWorker id "p".data "w".data
        (some [.file "a.html".data ("data-buna-route=".data ++ [qD] ++ "/a".data ++ [qD])]) =
      (.ok ({ workerPath := joinPath "w".data "worker.js".data,
              routes := (collectHtmlFilesOpt "p".data
                (some [.file "a.html".data
                  ("data-buna-route=".data ++ [qD] ++ "/a".data ++ [qD])])).length },
            (collectHtmlFilesOpt "p".data
                (some [.file "a.html".data
                  ("data-buna-route=".data ++ [qD] ++ "/a".data ++ [qD])])).map (fun fh =>
              { pattern := (extractRoutePattern fh.2).getD
                  (inferRouteFromFile (stripPathPrefix ("p".data ++ ['/']) fh.1)),
                html := id fh.2,
                regex := compilePatternToRegex ((extractRoutePattern fh.2).getD
                  (inferRouteFromFile (stripPathPrefix ("p".data ++ ['/']) fh.1))) })),
       [joinPath "w".data "worker.js".data]) :=
  buildCloudflareWorker_route_table id "p".data "w".data _
    (by simp [collectHtmlFilesOpt, collectHtmlFiles, joinPath])

theorem no_html_collect_nil :
    ∀ (d : Str) (fs : List FsNode), fsHasHtml fs = false → collectHtmlFiles d fs = [] := by
  intro d fs
  induction d, fs using collectHtmlFiles.induct with
  | case1 d => intro _; simp [collectHtmlFiles]
  | case2 d name contents rest ih =>
    intro h
    rw [fsHasHtml, Bool.or_eq_false_iff] at h
    rw [collectHtmlFiles, ih h.2]
    simp [h.1]
  | case3 d name sub rest ih1 ih2 =>
    intro h
    rw [fsHasHtml, Bool.or_eq_false_iff] at h
    rw [collectHtmlFiles, ih1 h.1, ih2 h.2]
    rfl

/-- C9: when the traversal of the pages directory finds no html file,
including the case of a missing directory where collectHtmlFiles
returns the empty list instead of raising the filesystem error, the
build returns an error and writes nothing, in particular no worker.js
file; and a tree without html files always collects to the empty
list. -/
theorem buildCloudflareWorker_empty_pages (transform : Str → Str)
    (pagesDir workerDir : Str) (fs : Option (List FsNode))
    (h : collectHtmlFilesOpt pagesDir fs = []) :
    (∃ e, (buildCloudflareWorker transform pagesDir workerDir fs).1 = .error e)
    ∧ (buildCloudflareWorker transform pagesDir workerDir fs).2 = []
    ∧ collectHtmlFilesOpt pagesDir none = []
    ∧ (∀ d fs', fsHasHtml fs' = false → collectHtmlFiles d fs' = []) := by
  refine ⟨?_, ?_, rfl, no_html_collect_nil⟩
  · simp only [buildCloudflareWorker]
    rw [if_pos h]
    exact ⟨_, rfl⟩
  · simp only [buildCloudflareWorker]
    rw [if_pos h]

/-- Witness for C9: a pages tree holding only a text file makes the
build fail without writing worker.js. -/
theorem buildCloudflareWorker_empty_pages_witness :
    (∃ e, (buildCloudflareWorker id "p".data "w".data
        (some [.file "a.txt".data "X".data])).1 = .error e)
    ∧ (buildCloudflareWorker id "p".data "w".data
        (some [.file "a.txt".data "X".data])).2 = [] := by
  have h := buildCloudflareWorker_empty_pages id "p".data "w".data
    (some [.file "a.txt".data "X".data])
    (by
      simp only [collectHtmlFilesOpt, collectHtmlFiles]
      rw [if_neg (by decide)]
      simp [collectHtmlFiles])
  exact ⟨h.1, h.2.1⟩

/-- C3: evaluation of transformHtmlFile at the failing input.  A script
tag that has no type attribute (only an attribute named notype with
value module) is nevertheless rewritten to the hashed-asset module tag,
because the source tests the lowercased tag text for substring
containment of the quoted module type instead of parsing the attribute;
the same html without the notype attribute is left unchanged, and a
genuine module tag is rewritten identically.  The first equation
contradicts the claim that only tags having the module type are
rewritten. -/
theorem transformHtml_substring_module_check :
    transformHtmlFile sampleEnv "d".data htmlNoTypeSub sampleCtx0 =
      .ok (scriptAssetTag "/as/src-app-h1.js".data, bugCtx)
    ∧ scriptAssetTag "/as/src-app-h1.js".data ≠ htmlNoTypeSub
    ∧ transformHtmlFile sampleEnv "d".data htmlPlainTag sampleCtx0 =
      .ok (htmlPlainTag, sampleCtx0)
    ∧ transformHtmlFile sampleEnv "d".data htmlModuleTag sampleCtx0 =
      .ok (scriptAssetTag "/as/src-app-h1.js".data, bugCtx) :=
  ⟨rfl, by decide, rfl, rfl⟩
